import Mathlib

/-!
Verification of the hyper-nat relay core: key derivation (lib/modes.js,
lib/config.js), forwarder engines and bridges (lib/dht-relay.js), and the
config manager (lib/config.js).  External overlay-library primitives
(`DHT.hash`, `DHT.keyPair`, keypear sub-key derivation, bs58) are modelled
as concrete deterministic functions following the contract the spec states
for them; everything else is translated directly from the source.
-/

namespace HyperNat

/-! ## Positional digit machinery for base-58 / base-256 encoding -/

/-- Digits of `n` in base `b`, most significant first (`[]` for `0`).
Fuel-based structural recursion so concrete values reduce in the kernel;
`fuel ≥ n` is always enough since the digit count is at most `n`. -/
def toDigitsBEAux (b : Nat) : Nat → Nat → List Nat
  | 0, _ => []
  | _ + 1, 0 => []
  | fuel + 1, n + 1 => toDigitsBEAux b fuel ((n + 1) / b) ++ [(n + 1) % b]

/-- Digits of `n` in base `b`, most significant first; `[]` for `0`. -/
def toDigitsBE (b n : Nat) : List Nat := toDigitsBEAux b n n

/-- Value of a most-significant-first digit list in base `b`. -/
def ofDigitsBE (b : Nat) (ds : List Nat) : Nat :=
  ds.foldl (fun a d => a * b + d) 0

theorem toDigitsBEAux_zero (b f : Nat) : toDigitsBEAux b f 0 = [] := by
  cases f <;> rfl

theorem toDigitsBEAux_fuel (b : Nat) (hb : 2 ≤ b) :
    ∀ n f g, n ≤ f → n ≤ g → toDigitsBEAux b f n = toDigitsBEAux b g n := by
  intro n
  induction n using Nat.strong_induction_on with
  | _ n ih =>
    intro f g hf hg
    cases n with
    | zero => rw [toDigitsBEAux_zero, toDigitsBEAux_zero]
    | succ m =>
      cases f with
      | zero => omega
      | succ fuel =>
        cases g with
        | zero => omega
        | succ gfuel =>
          have hdiv : (m + 1) / b < m + 1 :=
            Nat.div_lt_self (Nat.succ_pos m) (by omega)
          simp only [toDigitsBEAux]
          rw [ih ((m + 1) / b) hdiv fuel gfuel (by omega) (by omega)]

theorem toDigitsBE_zero (b : Nat) : toDigitsBE b 0 = [] := rfl

theorem toDigitsBE_succ (b n : Nat) (hb : 2 ≤ b) (hn : n ≠ 0) :
    toDigitsBE b n = toDigitsBE b (n / b) ++ [n % b] := by
  obtain ⟨m, rfl⟩ : ∃ m, n = m + 1 := ⟨n - 1, by omega⟩
  have hdiv : (m + 1) / b < m + 1 := Nat.div_lt_self (Nat.succ_pos m) (by omega)
  show toDigitsBEAux b (m + 1) (m + 1) = _
  simp only [toDigitsBEAux]
  rw [toDigitsBEAux_fuel b hb ((m + 1) / b) m ((m + 1) / b) (by omega) (le_refl _)]
  rfl

theorem ofDigitsBE_append (b : Nat) (ds : List Nat) (d : Nat) :
    ofDigitsBE b (ds ++ [d]) = ofDigitsBE b ds * b + d := by
  simp [ofDigitsBE, List.foldl_append]

theorem ofDigitsBE_toDigitsBE (b : Nat) (hb : 2 ≤ b) (n : Nat) :
    ofDigitsBE b (toDigitsBE b n) = n := by
  induction n using Nat.strong_induction_on with
  | _ n ih =>
    by_cases hn : n = 0
    · subst hn; rfl
    · rw [toDigitsBE_succ b n hb hn, ofDigitsBE_append,
        ih (n / b) (Nat.div_lt_self (Nat.pos_of_ne_zero hn) (by omega))]
      rw [Nat.mul_comm]
      exact Nat.div_add_mod n b

theorem foldl_digit_ge (b : Nat) (hb : 1 ≤ b) :
    ∀ (ds : List Nat) (a : Nat), a ≤ ds.foldl (fun x d => x * b + d) a := by
  intro ds
  induction ds with
  | nil => intro a; exact le_refl a
  | cons d t ih =>
    intro a
    have h1 : a ≤ a * b := Nat.le_mul_of_pos_right a (by omega)
    exact le_trans (le_trans h1 (Nat.le_add_right _ d)) (ih (a * b + d))

theorem ofDigitsBE_pos (b : Nat) (hb : 1 ≤ b) (d : Nat) (t : List Nat)
    (hd : d ≠ 0) : 0 < ofDigitsBE b (d :: t) := by
  have h : ofDigitsBE b (d :: t) = t.foldl (fun x e => x * b + e) d := by
    simp [ofDigitsBE]
  rw [h]
  exact lt_of_lt_of_le (Nat.pos_of_ne_zero hd) (foldl_digit_ge b hb t d)

theorem toDigitsBE_lt (b : Nat) (hb : 2 ≤ b) :
    ∀ n, ∀ d ∈ toDigitsBE b n, d < b := by
  intro n
  induction n using Nat.strong_induction_on with
  | _ n ih =>
    intro d hd
    by_cases hn : n = 0
    · subst hn; simp [toDigitsBE_zero] at hd
    · rw [toDigitsBE_succ b n hb hn] at hd
      rcases List.mem_append.mp hd with h | h
      · exact ih (n / b) (Nat.div_lt_self (Nat.pos_of_ne_zero hn) (by omega)) d h
      · simp at h; subst h; exact Nat.mod_lt n (by omega)

theorem toDigitsBE_ne_nil (b n : Nat) (hb : 2 ≤ b) (hn : n ≠ 0) :
    toDigitsBE b n ≠ [] := by
  rw [toDigitsBE_succ b n hb hn]; simp

theorem headI_append_of_ne_nil {α : Type} [Inhabited α] (l m : List α)
    (h : l ≠ []) : (l ++ m).headI = l.headI := by
  cases l with
  | nil => exact absurd rfl h
  | cons a t => rfl

theorem toDigitsBE_headI_ne_zero (b : Nat) (hb : 2 ≤ b) :
    ∀ n, n ≠ 0 → (toDigitsBE b n).headI ≠ 0 := by
  intro n
  induction n using Nat.strong_induction_on with
  | _ n ih =>
    intro hn
    rw [toDigitsBE_succ b n hb hn]
    by_cases hq : n / b = 0
    · rw [hq, toDigitsBE_zero]
      have hlt : n < b := (Nat.div_eq_zero_iff (by omega)).mp hq
      simpa [List.headI, Nat.mod_eq_of_lt hlt] using hn
    · rw [headI_append_of_ne_nil _ _ (toDigitsBE_ne_nil b (n / b) hb hq)]
      exact ih (n / b) (Nat.div_lt_self (Nat.pos_of_ne_zero hn) (by omega)) hq

theorem toDigitsBE_ofDigitsBE (b : Nat) (hb : 2 ≤ b) :
    ∀ ds : List Nat, (∀ d ∈ ds, d < b) → ds.headI ≠ 0 ∨ ds = [] →
      toDigitsBE b (ofDigitsBE b ds) = ds := by
  intro ds
  induction ds using List.reverseRecOn with
  | nil => intro _ _; rfl
  | append_singleton ds d ih =>
    intro hlt hh
    have hd : d < b := hlt d (by simp)
    cases ds with
    | nil =>
      have hd0 : d ≠ 0 := by
        rcases hh with h | h
        · simpa [List.headI] using h
        · simp at h
      have hv : ofDigitsBE b [d] = d := by simp [ofDigitsBE]
      rw [List.nil_append, hv, toDigitsBE_succ b d hb hd0, Nat.div_eq_of_lt hd,
        Nat.mod_eq_of_lt hd, toDigitsBE_zero]
      rfl
    | cons d0 t =>
      have hd0 : d0 ≠ 0 := by
        rcases hh with h | h
        · simpa [List.headI] using h
        · simp at h
      have hv : 0 < ofDigitsBE b (d0 :: t) :=
        ofDigitsBE_pos b (by omega) d0 t hd0
      rw [ofDigitsBE_append]
      have hvb : 0 < ofDigitsBE b (d0 :: t) * b := Nat.mul_pos hv (by omega)
      have hne : ofDigitsBE b (d0 :: t) * b + d ≠ 0 :=
        (Nat.lt_of_lt_of_le hvb (Nat.le_add_right _ _)).ne'
      rw [toDigitsBE_succ b _ hb hne]
      have hdiv : (ofDigitsBE b (d0 :: t) * b + d) / b = ofDigitsBE b (d0 :: t) := by
        rw [Nat.add_comm, Nat.add_mul_div_right _ _ (by omega : 0 < b),
          Nat.div_eq_of_lt hd, Nat.zero_add]
      have hmod : (ofDigitsBE b (d0 :: t) * b + d) % b = d := by
        rw [Nat.add_comm, Nat.add_mul_mod_self_right, Nat.mod_eq_of_lt hd]
      rw [hdiv, hmod,
        ih (fun x hx => hlt x (List.mem_append_left _ hx)) (Or.inl hd0)]

/-! ## Base58 encoding (model of the external `bs58` library) -/

/-- The Bitcoin base58 alphabet used by `bs58`. -/
def b58Alphabet : List Char :=
  "123456789ABCDEFGHJKLMNPQRSTUVWXYZabcdefghijkmnopqrstuvwxyz".toList

/-- Character for a base-58 digit. -/
def b58Char (d : Nat) : Char := b58Alphabet.getD d '?'

/-- Base-58 digit value of a character. -/
def b58Value (c : Char) : Nat := b58Alphabet.indexOf c

/-- Modelled from the spec: `bs58.encode` — "The encoding is base58 of the
raw public-key bytes": one `'1'` per leading zero byte, then the base-58
digits of the big-endian value. -/
def bs58encode (bs : List Nat) : List Char :=
  List.replicate (bs.takeWhile (fun x => x == 0)).length '1'
    ++ (toDigitsBE 58 (ofDigitsBE 256 bs)).map b58Char

/-- Modelled from the spec: `bs58.decode`, inverse of `bs58encode`. -/
def bs58decode (cs : List Char) : List Nat :=
  List.replicate (cs.takeWhile (fun c => c == '1')).length 0
    ++ toDigitsBE 256 (ofDigitsBE 58 ((cs.dropWhile (fun c => c == '1')).map b58Value))

theorem b58Value_b58Char : ∀ d, d < 58 → b58Value (b58Char d) = d := by decide

theorem b58Char_ne_one : ∀ d, d < 58 → d ≠ 0 → (b58Char d == '1') = false := by
  decide

theorem map_b58Value_map_b58Char (ds : List Nat) (h : ∀ d ∈ ds, d < 58) :
    (ds.map b58Char).map b58Value = ds := by
  induction ds with
  | nil => rfl
  | cons d t ih =>
    simp only [List.map_cons]
    rw [b58Value_b58Char d (h d (by simp)), ih (fun x hx => h x (by simp [hx]))]

theorem takeWhile_replicate_append {α : Type} (p : α → Bool) (a : α)
    (ha : p a = true) (z : Nat) (l : List α) :
    (List.replicate z a ++ l).takeWhile p = List.replicate z a ++ l.takeWhile p := by
  induction z with
  | zero => simp
  | succ z ih => simp [List.replicate_succ, List.takeWhile_cons, ha, ih]

theorem dropWhile_replicate_append {α : Type} (p : α → Bool) (a : α)
    (ha : p a = true) (z : Nat) (l : List α) :
    (List.replicate z a ++ l).dropWhile p = l.dropWhile p := by
  induction z with
  | zero => simp
  | succ z ih => simp [List.replicate_succ, List.dropWhile_cons, ha, ih]

theorem takeWhile_cons_of_neg {α : Type} (p : α → Bool) (a : α) (l : List α)
    (ha : p a = false) : (a :: l).takeWhile p = [] := by
  simp [List.takeWhile_cons, ha]

theorem dropWhile_cons_of_neg {α : Type} (p : α → Bool) (a : α) (l : List α)
    (ha : p a = false) : (a :: l).dropWhile p = a :: l := by
  simp [List.dropWhile_cons, ha]

theorem mem_takeWhile_eq_zero :
    ∀ (bs : List Nat), ∀ x ∈ bs.takeWhile (fun x => x == 0), x = 0 := by
  intro bs
  induction bs with
  | nil => simp
  | cons a t ih =>
    intro x hx
    rw [List.takeWhile_cons] at hx
    by_cases ha : a = 0
    · subst ha
      simp only [beq_self_eq_true, if_true, List.mem_cons] at hx
      rcases hx with h | h
      · exact h
      · exact ih x h
    · simp [ha] at hx

theorem dropWhile_head_false {α : Type} (p : α → Bool) :
    ∀ (l : List α) (a : α) (t : List α), l.dropWhile p = a :: t → p a = false := by
  intro l
  induction l with
  | nil => intro a t h; simp at h
  | cons x xs ih =>
    intro a t h
    rw [List.dropWhile_cons] at h
    by_cases hx : p x = true
    · rw [if_pos hx] at h
      exact ih a t h
    · rw [if_neg hx] at h
      cases h
      simpa using hx

theorem ofDigitsBE_replicate_zero (b z : Nat) (l : List Nat) :
    ofDigitsBE b (List.replicate z 0 ++ l) = ofDigitsBE b l := by
  induction z with
  | zero => simp
  | succ z ih =>
    show ofDigitsBE b (0 :: (List.replicate z 0 ++ l)) = _
    have h1 : ofDigitsBE b (0 :: (List.replicate z 0 ++ l))
        = ofDigitsBE b (List.replicate z 0 ++ l) := by
      simp [ofDigitsBE]
    rw [h1, ih]


theorem takeWhile_replicate_self {α : Type} (p : α → Bool) (a : α)
    (ha : p a = true) (z : Nat) :
    (List.replicate z a).takeWhile p = List.replicate z a := by
  induction z with
  | zero => rfl
  | succ z ih => simp [List.replicate_succ, List.takeWhile_cons, ha, ih]

theorem dropWhile_replicate_self {α : Type} (p : α → Bool) (a : α)
    (ha : p a = true) (z : Nat) :
    (List.replicate z a).dropWhile p = [] := by
  induction z with
  | zero => rfl
  | succ z ih => simp [List.replicate_succ, List.dropWhile_cons, ha, ih]

/-- Round trip of the base58 model: decoding an encoded byte string returns
the bytes, for any byte string (elements below 256). -/
theorem bs58_roundtrip (bs : List Nat) (hb : ∀ x ∈ bs, x < 256) :
    bs58decode (bs58encode bs) = bs := by
  unfold bs58encode bs58decode
  have htake : bs.takeWhile (fun x => x == 0)
      = List.replicate (bs.takeWhile (fun x => x == 0)).length 0 := by
    apply List.eq_replicate_length.mpr
    exact mem_takeWhile_eq_zero bs
  have hsplit : bs.takeWhile (fun x => x == 0) ++ bs.dropWhile (fun x => x == 0) = bs :=
    List.takeWhile_append_dropWhile (fun x => x == 0) bs
  have hval : ofDigitsBE 256 bs = ofDigitsBE 256 (bs.dropWhile (fun x => x == 0)) := by
    conv_lhs => rw [← hsplit, htake]
    rw [ofDigitsBE_replicate_zero]
  cases hdrop : bs.dropWhile (fun x => x == 0) with
  | nil =>
    have h0 : toDigitsBE 58 (ofDigitsBE 256 ([] : List Nat)) = [] := rfl
    rw [hval, hdrop, h0, List.map_nil, List.append_nil,
      takeWhile_replicate_self (fun c => c == '1') '1' (by decide),
      dropWhile_replicate_self (fun c => c == '1') '1' (by decide),
      List.length_replicate, List.map_nil]
    have h1 : toDigitsBE 256 (ofDigitsBE 58 ([] : List Nat)) = [] := rfl
    rw [h1, List.append_nil]
    conv_rhs => rw [← hsplit, hdrop]
    rw [List.append_nil]
    exact htake.symm
  | cons d0 t =>
    have hd0ne : d0 ≠ 0 := by
      have := dropWhile_head_false (fun x => x == 0) bs d0 t hdrop
      simpa using this
    have hmem : ∀ x ∈ d0 :: t, x < 256 := by
      intro x hx
      apply hb
      rw [← hsplit, hdrop]
      exact List.mem_append_right _ hx
    have hnpos : 0 < ofDigitsBE 256 (d0 :: t) :=
      ofDigitsBE_pos 256 (by omega) d0 t hd0ne
    rw [hval, hdrop]
    obtain ⟨dh, dt, hdig⟩ : ∃ dh dt,
        toDigitsBE 58 (ofDigitsBE 256 (d0 :: t)) = dh :: dt := by
      cases hcase : toDigitsBE 58 (ofDigitsBE 256 (d0 :: t)) with
      | nil => exact absurd hcase (toDigitsBE_ne_nil 58 _ (by omega) hnpos.ne')
      | cons a l => exact ⟨a, l, rfl⟩
    have hdhne : dh ≠ 0 := by
      have := toDigitsBE_headI_ne_zero 58 (by omega) (ofDigitsBE 256 (d0 :: t)) hnpos.ne'
      rw [hdig] at this
      simpa [List.headI] using this
    have hdlt : ∀ d ∈ dh :: dt, d < 58 := by
      intro d hd
      exact toDigitsBE_lt 58 (by omega) _ d (hdig ▸ hd)
    have hheadchar : ((fun c => c == '1') (b58Char dh)) = false :=
      b58Char_ne_one dh (hdlt dh (by simp)) hdhne
    rw [hdig, List.map_cons,
      takeWhile_replicate_append (fun c => c == '1') '1' (by decide),
      dropWhile_replicate_append (fun c => c == '1') '1' (by decide),
      takeWhile_cons_of_neg (fun c => c == '1') (b58Char dh) (List.map b58Char dt) hheadchar,
      dropWhile_cons_of_neg (fun c => c == '1') (b58Char dh) (List.map b58Char dt) hheadchar,
      List.append_nil, List.length_replicate, ← List.map_cons,
      map_b58Value_map_b58Char _ hdlt, ← hdig,
      ofDigitsBE_toDigitsBE 58 (by omega),
      toDigitsBE_ofDigitsBE 256 (by omega) _ hmem (Or.inl (by simpa [List.headI] using hd0ne))]
    rw [← hsplit, hdrop, htake,
      takeWhile_replicate_append (fun x => x == 0) 0 (by decide),
      takeWhile_cons_of_neg (fun x => x == 0) d0 t (by simpa using hd0ne),
      List.append_nil, List.length_replicate]

/-! ## Key derivation (lib/modes.js, lib/config.js)

`DHT.hash`, `DHT.keyPair` and keypear's `Keychain.get` are external
primitives; they are modelled as concrete deterministic functions obeying
the contract of spec section 6: `hash : bytes -> 32 bytes`,
`keypair_from_seed` deterministic, and `sub_keypair` hierarchical with the
public side derivable from the root public key alone. -/

/-- An asymmetric keypair: raw public and secret key bytes. -/
structure KeyPair where
  publicKey : List Nat
  secretKey : List Nat
deriving DecidableEq, Repr

/-- From `Buffer.from(secret)`: the bytes of the secret string. -/
def bufFrom (s : String) : List Nat := s.toList.map Char.toNat

/-- Modelled from the spec: `DHT.hash`, the overlay's configured hash,
`bytes -> 32 bytes`, deterministic. -/
def dhtHash (b : List Nat) : List Nat :=
  (List.range 32).map (fun i => (b.foldl (fun a x => a * 31 + x + 1) i) % 256)

/-- Modelled from the spec: `DHT.keyPair`, `keypair_from_seed : 32 bytes ->
KeyPair`, deterministic. -/
def dhtKeyPair (seed : List Nat) : KeyPair :=
  ⟨seed.map (fun x => (x + 13) % 256), seed⟩

/-- Modelled from the spec: the public half of keypear's
`new Keychain(root).get(name)` — "Hierarchical; public side derivable from
root public": a deterministic function of the root public key and the label
only. -/
def keychainSubPublic (rootPublic : List Nat) (name : String) : List Nat :=
  dhtHash (rootPublic ++ name.toList.map Char.toNat)

/-- Modelled from the spec: keypear's `new Keychain(kp).get(name)` on a full
keypair; its public half agrees with `keychainSubPublic` of the root public
key. -/
def keychainSub (root : KeyPair) (name : String) : KeyPair :=
  ⟨keychainSubPublic root.publicKey name,
    dhtHash (root.secretKey ++ name.toList.map Char.toNat)⟩

/-- From `ModeHandler.server` (lib/modes.js): the root keypair derived from the
secret, `DHT.keyPair(DHT.hash(Buffer.from(secret)))`. -/
def modesServerRootKeyPair (secret : String) : KeyPair :=
  dhtKeyPair (dhtHash (bufFrom secret))

/-- From `ModeHandler.server` (lib/modes.js): the printed base58 public key,
`bs58.encode(kp.publicKey)`. -/
def modesServerPublicKeyB58 (secret : String) : List Char :=
  bs58encode (modesServerRootKeyPair secret).publicKey

/-- From `ModeHandler.server` (lib/modes.js): the sub-keypair the server listens
on, `new Keychain(kp).get(proto + port)`. -/
def modesServerSubKeyPair (secret proto : String) (port : Nat) : KeyPair :=
  keychainSub (modesServerRootKeyPair secret) (proto ++ toString port)

/-- From `ModeHandler.client` (lib/modes.js): the sub-public-key the client
connects to, `new Keychain(bs58.decode(publicKey)).get(proto + port).publicKey`. -/
def modesClientSubKey (publicKeyB58 : List Char) (proto : String) (port : Nat) :
    List Nat :=
  keychainSubPublic (bs58decode publicKeyB58) (proto ++ toString port)

/-- From `ConfigManager.showConsolidatedCommand` (lib/config.js): the public key
computed in the consolidated path,
`bs58.encode(DHT.keyPair(DHT.hash(Buffer.from(secret))).publicKey)`. -/
def consolidatedPublicKeyB58 (secret : String) : List Char :=
  bs58encode (dhtKeyPair (dhtHash (bufFrom secret))).publicKey

theorem modesServerRootKeyPair_publicKey_lt (secret : String) :
    ∀ x ∈ (modesServerRootKeyPair secret).publicKey, x < 256 := by
  intro x hx
  simp only [modesServerRootKeyPair, dhtKeyPair, List.mem_map] at hx
  obtain ⟨y, _, rfl⟩ := hx
  exact Nat.mod_lt _ (by omega)

/-- C1: for every secret, protocol tag in {tcp, udp, tcpudp} and port, the
sub-public-key the client derives from only the base58-decoded root public
key with label `proto ++ decimal(port)` is byte-identical to the public half
of the sub-keypair the server derives from the root keypair obtained by
hashing the secret, with the same label. -/
theorem modes_sub_key_agreement (secret proto : String) (port : Nat)
    (hp : proto = "tcp" ∨ proto = "udp" ∨ proto = "tcpudp") :
    modesClientSubKey (modesServerPublicKeyB58 secret) proto port
      = (modesServerSubKeyPair secret proto port).publicKey := by
  unfold modesClientSubKey modesServerPublicKeyB58 modesServerSubKeyPair keychainSub
  rw [bs58_roundtrip _ (modesServerRootKeyPair_publicKey_lt secret)]

/-- Witness for C1 at concrete inputs. -/
theorem modes_sub_key_agreement_witness :
    modesClientSubKey (modesServerPublicKeyB58 "abc") "tcp" 7000
      = (modesServerSubKeyPair "abc" "tcp" 7000).publicKey :=
  modes_sub_key_agreement "abc" "tcp" 7000 (Or.inl rfl)

/-- C9: the base58 root public key is deterministic in the secret — two runs
with byte-identical secrets produce byte-identical encodings — and the
server path (lib/modes.js) and the consolidated-command path (lib/config.js)
computing it from the same secret agree. -/
theorem root_public_key_deterministic (s t : String) (h : s = t) :
    modesServerPublicKeyB58 s = consolidatedPublicKeyB58 t := by
  subst h
  rfl

/-- Witness for C9 at a concrete secret. -/
theorem root_public_key_deterministic_witness :
    modesServerPublicKeyB58 "mysecret" = consolidatedPublicKeyB58 "mysecret" :=
  root_public_key_deterministic "mysecret" "mysecret" rfl

/-! ## Socket options of the forwarder engines (lib/dht-relay.js) -/

/-- Options passed to `net.connect` when an engine opens its local TCP
connection. -/
structure NetConnectOptions where
  port : Nat
  host : String
  allowHalfOpen : Bool
  timeout : Option Nat
deriving DecidableEq, Repr

/-- Options passed to `net.createServer` when a client binds its local
listener. -/
structure NetServerOptions where
  allowHalfOpen : Bool
deriving DecidableEq, Repr

/-- From `createTcpServer` (dht-relay.js line 46): `net.connect({port, host,
allowHalfOpen: false, timeout: 15000})`. -/
def tcpServerConnectOptions (port : Nat) (host : String) : NetConnectOptions :=
  ⟨port, host, false, some 15000⟩

/-- From `createTcpClient` (dht-relay.js line 144):
`net.createServer({allowHalfOpen: false}, ...)`. -/
def tcpClientServerOptions : NetServerOptions := ⟨false⟩

/-- From `createTcpUdpServer` (dht-relay.js line 297): `net.connect({port, host,
allowHalfOpen: true})` (idle timeout set separately via `setTimeout(10000)`). -/
def tcpUdpServerConnectOptions (port : Nat) (host : String) : NetConnectOptions :=
  ⟨port, host, true, none⟩

/-- From `createTcpUdpClient` (dht-relay.js line 360):
`net.createServer({allowHalfOpen: true}, ...)`. -/
def tcpUdpClientServerOptions : NetServerOptions := ⟨true⟩

/-- C2 counterexample: the claim — TCP server socket permits half-open while
the TcpOverDatagram server and client sockets do not — is false for the
code: the settings are exactly reversed. -/
theorem half_open_claim_counterexample :
    ¬ ((tcpServerConnectOptions 7000 "127.0.0.1").allowHalfOpen = true
      ∧ (tcpUdpServerConnectOptions 7000 "127.0.0.1").allowHalfOpen = false
      ∧ tcpUdpClientServerOptions.allowHalfOpen = false) := by
  decide

/-- C2 (amended): the TCP engine opens its local sockets with half-open
disallowed (`allowHalfOpen: false` on both the server's `net.connect` and
the client's `net.createServer`), while the TcpOverDatagram engine allows
half-open on both its server's and client's local sockets. -/
theorem half_open_settings (port : Nat) (host : String) :
    (tcpServerConnectOptions port host).allowHalfOpen = false
      ∧ tcpClientServerOptions.allowHalfOpen = false
      ∧ (tcpUdpServerConnectOptions port host).allowHalfOpen = true
      ∧ tcpUdpClientServerOptions.allowHalfOpen = true :=
  ⟨rfl, rfl, rfl, rfl⟩

/-! ## Client readiness probes (lib/dht-relay.js)

An overlay connect attempt is abstracted by when (if ever) its `open` or
`error` event fires, in milliseconds after the attempt starts. -/

/-- Behaviour of one overlay connect attempt. -/
inductive ProbeAttempt where
  | opensAt (t : Nat)
  | errorsAt (t : Nat)
  | never
deriving DecidableEq, Repr

/-- Result of a probe that terminates. -/
structure ProbeResult where
  success : Bool
  elapsed : Nat
  attemptsMade : Nat
deriving DecidableEq, Repr

/-- One attempt of the TCP client probe (`createTcpClient`, dht-relay.js
lines 106-136): wait for `open`, with a 15 s timeout that destroys the test
socket and rejects; an `error` event rejects immediately.  Returns
(succeeded, time consumed). -/
def tcpProbeAttempt : ProbeAttempt → Bool × Nat
  | .opensAt t => if t < 15000 then (true, t) else (false, 15000)
  | .errorsAt t => if t < 15000 then (false, t) else (false, 15000)
  | .never => (false, 15000)

/-- The retry loop of `createTcpClient`: `attempts = 3`; on failure
`attempts--` and, if attempts remain, a 1 s delay before the next try; when
`attempts === 0` the last error is thrown. -/
def tcpProbeLoop (o : Nat → ProbeAttempt) : Nat → Nat → ProbeResult
  | _, 0 => ⟨false, 0, 0⟩
  | i, rem + 1 =>
    if (tcpProbeAttempt (o i)).1 then ⟨true, (tcpProbeAttempt (o i)).2, 1⟩
    else if rem = 0 then ⟨false, (tcpProbeAttempt (o i)).2, 1⟩
    else ⟨(tcpProbeLoop o (i + 1) rem).success,
      (tcpProbeAttempt (o i)).2 + 1000 + (tcpProbeLoop o (i + 1) rem).elapsed,
      (tcpProbeLoop o (i + 1) rem).attemptsMade + 1⟩

/-- The full TCP client probe: up to 3 attempts. -/
def tcpProbe (o : Nat → ProbeAttempt) : ProbeResult := tcpProbeLoop o 0 3

/-- From `createTcpClient` after the probe: the local TCP listener on
`(127.0.0.1, localPort)` is bound only if the probe succeeded; otherwise the
probe error is thrown first and no listener is ever created. -/
def tcpClientListener (o : Nat → ProbeAttempt) (localPort : Nat) :
    Option (Nat × String) :=
  if (tcpProbe o).success then some (localPort, "127.0.0.1") else none

theorem tcpProbeAttempt_le (a : ProbeAttempt) : (tcpProbeAttempt a).2 ≤ 15000 := by
  cases a with
  | opensAt t => by_cases h : t < 15000 <;> simp [tcpProbeAttempt, h] <;> omega
  | errorsAt t => by_cases h : t < 15000 <;> simp [tcpProbeAttempt, h] <;> omega
  | never => simp [tcpProbeAttempt]

theorem tcpProbeLoop_bound (o : Nat → ProbeAttempt) :
    ∀ rem i, (tcpProbeLoop o i rem).elapsed ≤ rem * 15000 + (rem - 1) * 1000
      ∧ (tcpProbeLoop o i rem).attemptsMade ≤ rem := by
  intro rem
  induction rem with
  | zero => intro i; exact ⟨Nat.le_refl 0, Nat.le_refl 0⟩
  | succ k ih =>
    intro i
    have hle := tcpProbeAttempt_le (o i)
    obtain ⟨ih1, ih2⟩ := ih (i + 1)
    simp only [tcpProbeLoop]
    by_cases hr : (tcpProbeAttempt (o i)).1 = true
    · rw [if_pos hr]
      constructor <;> simp <;> omega
    · rw [if_neg hr]
      by_cases hk : k = 0
      · subst hk
        rw [if_pos rfl]
        constructor <;> simp <;> omega
      · rw [if_neg hk]
        constructor <;> simp <;> omega

/-- C3 counterexample: the claim says a fully failing probe raises its error
within 15 s; when all three attempts time out the probe takes 47 s
(3 × 15 s timeouts plus 2 × 1 s retry delays), and still fails. -/
theorem tcp_probe_not_within_15s :
    (tcpProbe (fun _ => ProbeAttempt.never)).success = false
      ∧ (tcpProbe (fun _ => ProbeAttempt.never)).elapsed = 47000
      ∧ ¬ (tcpProbe (fun _ => ProbeAttempt.never)).elapsed ≤ 15000 := by
  decide

/-- C3 (amended): the TCP client probes readiness before binding; each
attempt waits for `open` with a 15 s timeout, failures are retried after a
1 s delay with at most 3 attempts in all, and if every attempt fails the
probe error is raised within 47 s — not 15 s — and no local TCP listener is
ever bound. -/
theorem tcp_probe_failure_bound (o : Nat → ProbeAttempt) (localPort : Nat)
    (h : (tcpProbe o).success = false) :
    (tcpProbe o).elapsed ≤ 47000
      ∧ (tcpProbe o).attemptsMade ≤ 3
      ∧ tcpClientListener o localPort = none := by
  obtain ⟨he, ha⟩ := tcpProbeLoop_bound o 3 0
  exact ⟨by simpa using he, ha, by simp [tcpClientListener, h]⟩

/-- Witness for the amended C3 at a concrete failing outcome. -/
theorem tcp_probe_failure_bound_witness :
    (tcpProbe (fun i => ProbeAttempt.errorsAt (100 * i))).elapsed ≤ 47000
      ∧ (tcpProbe (fun i => ProbeAttempt.errorsAt (100 * i))).attemptsMade ≤ 3
      ∧ tcpClientListener (fun i => ProbeAttempt.errorsAt (100 * i)) 17000 = none :=
  tcp_probe_failure_bound (fun i => ProbeAttempt.errorsAt (100 * i)) 17000 (by decide)

/-- From `createTcpUdpClient` (dht-relay.js lines 355-357): the probe is
`const testConn = await this.node.connect(publicKey);
await new Promise(res => testConn.on('open', res)); testConn.destroy();` —
a single attempt waiting only for `open`, with no timeout, no error handler,
no retry and no delay.  `none` means the probe never completes. -/
def tcpUdpProbeResult : ProbeAttempt → Option ProbeResult
  | .opensAt t => some ⟨true, t, 1⟩
  | .errorsAt _ => none
  | .never => none

/-- C4 counterexample: for an unreachable peer (no `open` ever fires) the
TCP client's probe fails after 47 s, while the TcpOverDatagram client's
probe never completes at all — it does not fail the same way. -/
theorem tcpudp_probe_differs_from_tcp :
    tcpUdpProbeResult ProbeAttempt.never = none
      ∧ (tcpProbe (fun _ => ProbeAttempt.never)).success = false
      ∧ (tcpProbe (fun _ => ProbeAttempt.never)).elapsed = 47000 := by
  decide

/-- C4 (amended): the TcpOverDatagram client's probe is a single overlay
connect that waits indefinitely for `open`, with no timeout, no retries and
no 1 s delay; it completes (successfully, on the first attempt) exactly when
`open` fires, and for a peer that errors or never answers it never
completes, so it does not fail the way the TCP client's probe does. -/
theorem tcpudp_probe_single_attempt (t : Nat) :
    tcpUdpProbeResult (ProbeAttempt.opensAt t) = some ⟨true, t, 1⟩
      ∧ tcpUdpProbeResult (ProbeAttempt.errorsAt t) = none
      ∧ tcpUdpProbeResult ProbeAttempt.never = none
      ∧ (tcpProbe (fun _ => ProbeAttempt.never)).success = false :=
  ⟨rfl, rfl, rfl, by decide⟩

/-! ## Bridge lifecycle (lib/dht-relay.js)

State of the per-connection cleanup helpers, with counters recording how
many `end()`/`close()` calls have been issued on each endpoint. -/

/-- Bridge state of `createTcpServer` / `createTcpClient` / `createUdpServer`:
one write-once `destroyed` latch guarding both endpoint closes. -/
structure TcpBridge where
  destroyed : Bool
  socketEnds : Nat
  servsockEnds : Nat
deriving DecidableEq, Repr

/-- The `cleanup` closure (dht-relay.js lines 54-60):
`if (!destroyed) { destroyed = true; socket.end(); servsock.end(); }`. -/
def tcpBridgeCleanup (s : TcpBridge) : TcpBridge :=
  if s.destroyed then s
  else ⟨true, s.socketEnds + 1, s.servsockEnds + 1⟩

/-- Bridge state of `createTcpUdpServer` / `createTcpUdpClient`: two ended
flags plus the (externally set) `destroyed` properties of the two sockets. -/
structure TcpUdpBridge where
  tcpEnded : Bool
  udpEnded : Bool
  socketDestroyed : Bool
  connDestroyed : Bool
  socketEnds : Nat
  connEnds : Nat
deriving DecidableEq, Repr

/-- The `gracefulClose` closure (dht-relay.js lines 305-317):
early-return when both flags are set, otherwise end each endpoint whose
flag is unset and whose socket is not destroyed. -/
def gracefulClose (s : TcpUdpBridge) : TcpUdpBridge :=
  if s.tcpEnded && s.udpEnded then s
  else
    let s1 := if !s.tcpEnded && !s.socketDestroyed then
        { s with tcpEnded := true, socketEnds := s.socketEnds + 1 }
      else s
    if !s1.udpEnded && !s1.connDestroyed then
      { s1 with udpEnded := true, connEnds := s1.connEnds + 1 }
    else s1

theorem tcpBridgeCleanup_idem (s : TcpBridge) :
    tcpBridgeCleanup (tcpBridgeCleanup s) = tcpBridgeCleanup s := by
  unfold tcpBridgeCleanup
  by_cases h : s.destroyed <;> simp [h]

theorem gracefulClose_idem (s : TcpUdpBridge) :
    gracefulClose (gracefulClose s) = gracefulClose s := by
  rcases s with ⟨te, ue, sd, cd, se, ce⟩
  cases te <;> cases ue <;> cases sd <;> cases cd <;>
    simp [gracefulClose]

/-- C5: for every bridge, the `destroyed` flag transitions false→true at
most once — after one `cleanup` it is true and stays true — and both
`cleanup` (TCP/UDP engines) and `gracefulClose` (TcpOverDatagram engine) are
idempotent: any number of further invocations leaves the state, including
the `end()` call counters on both endpoints, unchanged. -/
theorem bridge_cleanup_idempotent (s : TcpBridge) (t : TcpUdpBridge) (n : Nat) :
    Nat.iterate tcpBridgeCleanup n (tcpBridgeCleanup s) = tcpBridgeCleanup s
      ∧ (tcpBridgeCleanup s).destroyed = true
      ∧ Nat.iterate gracefulClose n (gracefulClose t) = gracefulClose t := by
  refine ⟨?_, ?_, ?_⟩
  · induction n with
    | zero => rfl
    | succ k ih =>
      rw [Function.iterate_succ_apply, tcpBridgeCleanup_idem, ih]
  · unfold tcpBridgeCleanup
    by_cases h : s.destroyed <;> simp [h]
  · induction n with
    | zero => rfl
    | succ k ih =>
      rw [Function.iterate_succ_apply, gracefulClose_idem, ih]

/-! ## UDP server bridging (`createUdpServer`, dht-relay.js lines 199-255) -/

/-- Per-connection state of the UDP server bridge: the `destroyed` latch and
the datagrams forwarded in each direction, plus close-call counters. -/
structure UdpServerBridge where
  destroyed : Bool
  sentToOverlay : List (List Nat)
  sentToLocal : List (List Nat)
  clientCloses : Nat
  connEnds : Nat
deriving DecidableEq, Repr

/-- The `cleanup` closure (dht-relay.js lines 206-212):
`if (!destroyed) { destroyed = true; client.close(); conn.end(); }`. -/
def udpServerCleanup (s : UdpServerBridge) : UdpServerBridge :=
  if s.destroyed then s
  else { s with destroyed := true, clientCloses := s.clientCloses + 1,
                connEnds := s.connEnds + 1 }

/-- Events the UDP server bridge handles.  A message event carries whether
the forwarding `send` call succeeds (a throwing send triggers `cleanup`). -/
inductive UdpServerEvent where
  | localMessage (buf : List Nat) (sendOk : Bool)
  | overlayMessage (buf : List Nat) (sendOk : Bool)
  | connEnd
  | connError
  | clientError
deriving DecidableEq, Repr

/-- Event handlers of `createUdpServer`: both message directions are guarded
by `if (!destroyed)`; `end`/`error` events call `cleanup`. -/
def udpServerStep (s : UdpServerBridge) : UdpServerEvent → UdpServerBridge
  | .localMessage buf ok =>
    if s.destroyed then s
    else if ok then { s with sentToOverlay := s.sentToOverlay ++ [buf] }
    else udpServerCleanup s
  | .overlayMessage buf ok =>
    if s.destroyed then s
    else if ok then { s with sentToLocal := s.sentToLocal ++ [buf] }
    else udpServerCleanup s
  | .connEnd => udpServerCleanup s
  | .connError => udpServerCleanup s
  | .clientError => udpServerCleanup s

/-- A sequence of events processed by the UDP server bridge. -/
def udpServerRun (s : UdpServerBridge) (es : List UdpServerEvent) : UdpServerBridge :=
  es.foldl udpServerStep s

theorem udpServerStep_destroyed (s : UdpServerBridge) (e : UdpServerEvent)
    (h : s.destroyed = true) : udpServerStep s e = s := by
  cases e <;> simp [udpServerStep, udpServerCleanup, h]

/-- C6: once `cleanup` has run, `destroyed` is true and no further event
delivers any byte on either endpoint — the whole bridge state, in particular
the datagrams forwarded local→overlay and overlay→local, is unchanged by
every subsequent event sequence. -/
theorem udp_server_no_delivery_after_cleanup (s : UdpServerBridge)
    (es : List UdpServerEvent) :
    udpServerRun (udpServerCleanup s) es = udpServerCleanup s
      ∧ (udpServerCleanup s).destroyed = true := by
  have hd : (udpServerCleanup s).destroyed = true := by
    unfold udpServerCleanup
    by_cases h : s.destroyed <;> simp [h]
  refine ⟨?_, hd⟩
  induction es generalizing s with
  | nil => rfl
  | cons e t ih =>
    show udpServerRun (udpServerStep (udpServerCleanup s) e) t = _
    rw [udpServerStep_destroyed _ e hd]
    exact ih s hd

/-! ## UDP client bridging (`createUdpClient`, dht-relay.js lines 257-291) -/

/-- State of the UDP client session: the latched `inport` (`0` models the
initial JavaScript `undefined`), datagrams sent to the overlay, datagrams
delivered back to a local port, and overlay datagrams that arrived before
any local source was known. -/
structure UdpClientBridge where
  inport : Nat
  sentToOverlay : List (List Nat)
  deliveredToLocal : List (List Nat × Nat)
  droppedFromOverlay : List (List Nat)
deriving DecidableEq, Repr

/-- Initial session state: `let inport;` — no port latched. -/
def udpClientInit : UdpClientBridge := ⟨0, [], [], []⟩

/-- Events of the UDP client: a local datagram with its source port, or an
overlay datagram. -/
inductive UdpClientEvent where
  | localMessage (buf : List Nat) (srcPort : Nat)
  | overlayMessage (buf : List Nat)
deriving DecidableEq, Repr

/-- Event handlers of `createUdpClient`:
`server.on('message', (buf, rinfo) => { if (!inport) inport = rinfo.port;
conn.rawStream.send(buf); })` and
`conn.rawStream.on('message', (buf) => { server.send(buf, inport); })`.
An overlay datagram with no latched port has no known destination and is
dropped (spec: "Reverse traffic before any local datagram is dropped"). -/
def udpClientStep (s : UdpClientBridge) : UdpClientEvent → UdpClientBridge
  | .localMessage buf p =>
    { s with inport := if s.inport = 0 then p else s.inport,
             sentToOverlay := s.sentToOverlay ++ [buf] }
  | .overlayMessage buf =>
    if s.inport = 0 then { s with droppedFromOverlay := s.droppedFromOverlay ++ [buf] }
    else { s with deliveredToLocal := s.deliveredToLocal ++ [(buf, s.inport)] }

/-- A sequence of events processed by the UDP client session. -/
def udpClientRun (s : UdpClientBridge) (es : List UdpClientEvent) : UdpClientBridge :=
  es.foldl udpClientStep s

/-- Whether an event is an inbound local datagram. -/
def isLocalMessage : UdpClientEvent → Bool
  | .localMessage _ _ => true
  | .overlayMessage _ => false

/-- The payloads of the overlay datagrams in an event sequence. -/
def overlayBufs : List UdpClientEvent → List (List Nat)
  | [] => []
  | .overlayMessage buf :: es => buf :: overlayBufs es
  | .localMessage _ _ :: es => overlayBufs es

theorem udpClientRun_nil (s : UdpClientBridge) : udpClientRun s [] = s := rfl

theorem udpClientRun_cons (s : UdpClientBridge) (e : UdpClientEvent)
    (t : List UdpClientEvent) :
    udpClientRun s (e :: t) = udpClientRun (udpClientStep s e) t := rfl

theorem udpClientRun_append (s : UdpClientBridge) (l1 l2 : List UdpClientEvent) :
    udpClientRun s (l1 ++ l2) = udpClientRun (udpClientRun s l1) l2 :=
  List.foldl_append _ _ _ _

theorem udpClientRun_before_latch (es : List UdpClientEvent) :
    ∀ s : UdpClientBridge, (∀ e ∈ es, isLocalMessage e = false) → s.inport = 0 →
      (udpClientRun s es).inport = 0
      ∧ (udpClientRun s es).droppedFromOverlay = s.droppedFromOverlay ++ overlayBufs es
      ∧ (udpClientRun s es).deliveredToLocal = s.deliveredToLocal := by
  induction es with
  | nil =>
    intro s _ h0
    exact ⟨h0, by simp [udpClientRun_nil, overlayBufs], rfl⟩
  | cons e t ih =>
    intro s hl h0
    cases e with
    | localMessage buf p =>
      have hcon := hl (.localMessage buf p) (List.mem_cons_self _ _)
      simp [isLocalMessage] at hcon
    | overlayMessage buf =>
      have hstep : udpClientStep s (.overlayMessage buf)
          = { s with droppedFromOverlay := s.droppedFromOverlay ++ [buf] } := by
        simp [udpClientStep, h0]
      rw [udpClientRun_cons, hstep]
      obtain ⟨i1, i2, i3⟩ := ih { s with droppedFromOverlay := s.droppedFromOverlay ++ [buf] }
        (fun x hx => hl x (List.mem_cons_of_mem _ hx)) h0
      refine ⟨i1, ?_, i3⟩
      rw [i2]
      simp [overlayBufs]

theorem udpClientRun_after_latch (es : List UdpClientEvent) :
    ∀ (s : UdpClientBridge) (p : Nat), s.inport = p → p ≠ 0 →
      (udpClientRun s es).inport = p
      ∧ (udpClientRun s es).deliveredToLocal
          = s.deliveredToLocal ++ (overlayBufs es).map (fun b => (b, p)) := by
  induction es with
  | nil =>
    intro s p hp _
    exact ⟨hp, by simp [udpClientRun_nil, overlayBufs]⟩
  | cons e t ih =>
    intro s p hp hne
    cases e with
    | localMessage buf q =>
      have hip : (udpClientStep s (.localMessage buf q)).inport = p := by
        simp only [udpClientStep]
        rw [hp]
        simp [hne]
      obtain ⟨i1, i2⟩ := ih _ p hip hne
      rw [udpClientRun_cons]
      refine ⟨i1, ?_⟩
      rw [i2]
      simp [udpClientStep, overlayBufs]
    | overlayMessage buf =>
      have h0 : ¬ s.inport = 0 := by rw [hp]; exact hne
      have hstep : udpClientStep s (.overlayMessage buf)
          = { s with deliveredToLocal := s.deliveredToLocal ++ [(buf, p)] } := by
        simp only [udpClientStep, hp]
        rw [if_neg hne]
      rw [udpClientRun_cons, hstep]
      obtain ⟨i1, i2⟩ := ih { s with deliveredToLocal := s.deliveredToLocal ++ [(buf, p)] }
        p (by simpa using hp) hne
      refine ⟨i1, ?_⟩
      rw [i2]
      simp [overlayBufs]

/-- C7: in the UDP client, overlay datagrams that arrive before any local
datagram are dropped (and nothing is delivered); once the first local
datagram arrives, its (nonzero) source port is latched as `inport` and never
updated — even if later local datagrams come from other ports — and every
overlay datagram received after the latch is delivered to exactly that
port.  The nonzero hypothesis reflects that `0` models the JavaScript
`undefined` of the unset latch. -/
theorem udp_client_inport_latch (pre post : List UdpClientEvent)
    (buf : List Nat) (p : Nat)
    (hpre : ∀ e ∈ pre, isLocalMessage e = false) (hp : p ≠ 0) :
    ((udpClientRun udpClientInit pre).deliveredToLocal = []
      ∧ (udpClientRun udpClientInit pre).droppedFromOverlay = overlayBufs pre)
    ∧ (udpClientRun udpClientInit
        (pre ++ UdpClientEvent.localMessage buf p :: post)).inport = p
    ∧ (udpClientRun udpClientInit
        (pre ++ UdpClientEvent.localMessage buf p :: post)).deliveredToLocal
      = (overlayBufs post).map (fun b => (b, p)) := by
  obtain ⟨b1, b2, b3⟩ := udpClientRun_before_latch pre udpClientInit hpre rfl
  have hdrop : (udpClientRun udpClientInit pre).droppedFromOverlay = overlayBufs pre := by
    rw [b2]; rfl
  have hstep : (udpClientStep (udpClientRun udpClientInit pre)
      (.localMessage buf p)).inport = p := by
    simp [udpClientStep, b1]
  have hdel : (udpClientStep (udpClientRun udpClientInit pre)
      (.localMessage buf p)).deliveredToLocal = [] := by
    have hproj : (udpClientStep (udpClientRun udpClientInit pre)
        (.localMessage buf p)).deliveredToLocal
        = (udpClientRun udpClientInit pre).deliveredToLocal := by
      simp [udpClientStep]
    rw [hproj, b3]
    rfl
  obtain ⟨a1, a2⟩ := udpClientRun_after_latch post _ p hstep hp
  refine ⟨⟨b3, hdrop⟩, ?_, ?_⟩
  · rw [udpClientRun_append, udpClientRun_cons]
    exact a1
  · rw [udpClientRun_append, udpClientRun_cons, a2, hdel]
    rfl

/-- Witness for C7 on a concrete trace: one early overlay datagram (dropped),
a first local datagram from port 5000 (latched), a later local datagram from
port 6000 (ignored for the latch), and overlay datagrams delivered to 5000. -/
theorem udp_client_inport_latch_witness :
    ((udpClientRun udpClientInit [UdpClientEvent.overlayMessage [9]]).deliveredToLocal = []
      ∧ (udpClientRun udpClientInit [UdpClientEvent.overlayMessage [9]]).droppedFromOverlay
        = overlayBufs [UdpClientEvent.overlayMessage [9]])
    ∧ (udpClientRun udpClientInit
        ([UdpClientEvent.overlayMessage [9]] ++ UdpClientEvent.localMessage [1] 5000
          :: [UdpClientEvent.overlayMessage [2], UdpClientEvent.localMessage [3] 6000,
              UdpClientEvent.overlayMessage [4]])).inport = 5000
    ∧ (udpClientRun udpClientInit
        ([UdpClientEvent.overlayMessage [9]] ++ UdpClientEvent.localMessage [1] 5000
          :: [UdpClientEvent.overlayMessage [2], UdpClientEvent.localMessage [3] 6000,
              UdpClientEvent.overlayMessage [4]])).deliveredToLocal
      = (overlayBufs [UdpClientEvent.overlayMessage [2], UdpClientEvent.localMessage [3] 6000,
              UdpClientEvent.overlayMessage [4]]).map (fun b => (b, 5000)) :=
  udp_client_inport_latch [UdpClientEvent.overlayMessage [9]]
    [UdpClientEvent.overlayMessage [2], UdpClientEvent.localMessage [3] 6000,
      UdpClientEvent.overlayMessage [4]] [1] 5000 (by decide) (by decide)

/-! ## Config manager (lib/config.js `ConfigManager.runFromConfig`,
`showConsolidatedCommand`) -/

/-- A forward spec's mode. -/
inductive Mode where
  | server
  | client
deriving DecidableEq, Repr

/-- One entry of a config schema, with the fields `runFromConfig` and the
mode handlers read.  `localPort = none` models an absent or `null` JavaScript
value. -/
structure SpecConfig where
  mode : Mode
  proto : String
  port : Nat
  host : String
  secret : String
  publicKey : List Char
  localPort : Option Nat
  showCommands : Bool
deriving DecidableEq, Repr

/-- JavaScript `localPort || port`: any falsy `localPort` (absent, `null`,
`0`) falls back to `port`. -/
def jsOrPort (localPort : Option Nat) (port : Nat) : Nat :=
  match localPort with
  | none => port
  | some n => if n = 0 then port else n

/-- The per-spec adjustment in `runFromConfig` (lib/config.js lines 49-56):
servers lose `showCommands` when a consolidated command is shown, and client
specs get `config.localPort = config.localPort || forwarder.port`. -/
def adjustSpec (showConsolidated : Bool) (c : SpecConfig) : SpecConfig :=
  let c1 := if showConsolidated && (c.mode == Mode.server) then
      { c with showCommands := false }
    else c
  if c.mode == Mode.client then
    { c1 with localPort := some (jsOrPort c1.localPort c1.port) }
  else c1

/-- Observable command output lines, abstracted to their content. -/
inductive OutputLine where
  | consolidatedCommand (ports : List Nat) (protos : List String) (publicKey : List Char)
  | individualCommand (proto : String) (port : Nat) (publicKey : List Char)
deriving DecidableEq, Repr

/-- From `ModeHandler.server` (lib/modes.js lines 42-46): one individual client
command (containing the public key) is printed iff `showCommands` is set. -/
def modeServerOutput (c : SpecConfig) : List OutputLine :=
  if c.showCommands then
    [OutputLine.individualCommand c.proto c.port (modesServerPublicKeyB58 c.secret)]
  else []

/-- Output of running one spec through its mode handler (`ModeHandler.client`
prints no command lines). -/
def modeOutput (c : SpecConfig) : List OutputLine :=
  match c.mode with
  | Mode.server => modeServerOutput c
  | Mode.client => []

/-- From `ConfigManager.showConsolidatedCommand` (lib/config.js lines 74-90): one
command built from the first config's secret and the ports and protocols of
all server configs, in order. -/
def showConsolidatedCommandOutput (serverConfigs : List SpecConfig) : List OutputLine :=
  match serverConfigs with
  | [] => []
  | firstConfig :: restConfigs =>
    [OutputLine.consolidatedCommand
      ((firstConfig :: restConfigs).map (fun c => c.port))
      ((firstConfig :: restConfigs).map (fun c => c.proto))
      (consolidatedPublicKeyB58 firstConfig.secret)]

/-- From `ConfigManager.runFromConfig` (lib/config.js lines 34-68), restricted to
its printed output: the consolidated command for the server configs when
requested and present, followed by each spec's own output with the adjusted
flags. -/
def runFromConfigOutput (schema : List SpecConfig) (showConsolidated : Bool) :
    List OutputLine :=
  (if showConsolidated && !(schema.filter (fun c => c.mode == Mode.server)).isEmpty
   then showConsolidatedCommandOutput (schema.filter (fun c => c.mode == Mode.server))
   else [])
  ++ (schema.map (fun c => modeOutput (adjustSpec showConsolidated c))).flatten

theorem modeOutput_adjust_server (c : SpecConfig) (h : c.mode = Mode.server) :
    modeOutput (adjustSpec true c) = [] := by
  simp [adjustSpec, h, modeOutput, modeServerOutput]

/-- C8: running a nonempty schema of server specs that all share one secret
in consolidated mode prints exactly one line — the consolidated client
command carrying the shared public key once and every (proto, port) pair of
the specs in input order — and no per-spec individual command. -/
theorem consolidated_command_unique (c0 : SpecConfig) (rest : List SpecConfig)
    (s : String) (hmode : ∀ c ∈ c0 :: rest, c.mode = Mode.server)
    (hsec : ∀ c ∈ c0 :: rest, c.secret = s) :
    runFromConfigOutput (c0 :: rest) true
      = [OutputLine.consolidatedCommand ((c0 :: rest).map (fun c => c.port))
          ((c0 :: rest).map (fun c => c.proto)) (consolidatedPublicKeyB58 s)] := by
  have hfilter : (c0 :: rest).filter (fun c => c.mode == Mode.server) = c0 :: rest := by
    apply List.filter_eq_self.mpr
    intro c hc
    simp [hmode c hc]
  have hflat : ((c0 :: rest).map (fun c => modeOutput (adjustSpec true c))).flatten = [] := by
    apply List.flatten_eq_nil_iff.mpr
    intro l hl
    rcases List.mem_map.mp hl with ⟨c, hc, rfl⟩
    exact modeOutput_adjust_server c (hmode c hc)
  unfold runFromConfigOutput
  rw [hfilter, hflat, List.append_nil]
  have hne : ((c0 :: rest).isEmpty : Bool) = false := rfl
  rw [hne]
  simp only [Bool.and_true, Bool.not_false, Bool.true_and, if_true]
  show showConsolidatedCommandOutput (c0 :: rest) = _
  have hout : showConsolidatedCommandOutput (c0 :: rest)
      = [OutputLine.consolidatedCommand ((c0 :: rest).map (fun c => c.port))
          ((c0 :: rest).map (fun c => c.proto)) (consolidatedPublicKeyB58 c0.secret)] := rfl
  rw [hout, hsec c0 (List.mem_cons_self _ _)]

/-- Witness for C8: three server specs sharing one secret. -/
theorem consolidated_command_unique_witness :
    runFromConfigOutput
      [⟨Mode.server, "tcp", 7000, "127.0.0.1", "abc", [], none, true⟩,
       ⟨Mode.server, "udp", 7001, "127.0.0.1", "abc", [], none, true⟩,
       ⟨Mode.server, "tcpudp", 7002, "127.0.0.1", "abc", [], none, true⟩] true
      = [OutputLine.consolidatedCommand [7000, 7001, 7002] ["tcp", "udp", "tcpudp"]
          (consolidatedPublicKeyB58 "abc")] :=
  consolidated_command_unique
    ⟨Mode.server, "tcp", 7000, "127.0.0.1", "abc", [], none, true⟩
    [⟨Mode.server, "udp", 7001, "127.0.0.1", "abc", [], none, true⟩,
     ⟨Mode.server, "tcpudp", 7002, "127.0.0.1", "abc", [], none, true⟩]
    "abc" (by decide) (by decide)

/-- C10: for a client spec run through the config manager, a falsy
`localPort` (absent/null modelled as `none`, or `0`) defaults to the spec's
remote port, and an explicit nonzero `localPort` passes through unchanged. -/
theorem client_local_port_default (b : Bool) (c : SpecConfig)
    (hc : c.mode = Mode.client) :
    ((c.localPort = none ∨ c.localPort = some 0) →
        (adjustSpec b c).localPort = some c.port)
      ∧ (∀ n, n ≠ 0 → c.localPort = some n → (adjustSpec b c).localPort = some n) := by
  constructor
  · intro hfalsy
    rcases hfalsy with h | h <;>
      simp [adjustSpec, hc, jsOrPort, h]
  · intro n hn h
    simp [adjustSpec, hc, jsOrPort, h, hn]

/-- Witness for C10: one client spec with `localPort` absent (defaults to the
remote port 80) and one with explicit `localPort` 8080 (passed through). -/
theorem client_local_port_default_witness :
    (adjustSpec false ⟨Mode.client, "tcp", 80, "127.0.0.1", "", [], none, false⟩).localPort
        = some 80
      ∧ (adjustSpec false
          ⟨Mode.client, "tcp", 80, "127.0.0.1", "", [], some 8080, false⟩).localPort
        = some 8080 :=
  ⟨(client_local_port_default false
      ⟨Mode.client, "tcp", 80, "127.0.0.1", "", [], none, false⟩ rfl).1 (Or.inl rfl),
   (client_local_port_default false
      ⟨Mode.client, "tcp", 80, "127.0.0.1", "", [], some 8080, false⟩ rfl).2
     8080 (by decide) rfl⟩
